import Mathlib

/-!
Verification of the core of `ascross` (ASCII-to-HTML crossword renderer,
file `ascross.py`): the grid parser (`parse_grid` / `parse_extended`) and
the clue mapper (`map_clues`).

The Python code is shallowly embedded:
  * `Cell`, `CellKind`, `Direction` mirror the dataclass/enums;
  * `parse_grid` is embedded twice: a structural version (`parse_grid`)
    recursing over the padded character rows, and an index-based version
    (`parse_gridE`) that mirrors the Python `while` loops and random
    accesses `input_grid[row_idx][col_idx]` literally, returning `none`
    where Python would raise `IndexError`.  They are proved to agree,
    which shows the parser never raises.
  * `map_clues` is embedded in `Except MapError`, with one constructor
    per `raise` site of the Python code plus the two implicit runtime
    errors (`ValueError` from unpacking `split(':', 1)`, `IndexError`
    from `prefix[0]` on an empty prefix).
-/

set_option maxRecDepth 10000

inductive CellKind where
  | OUTSIDE
  | LETTER
  | BLOCKED
deriving DecidableEq

inductive Direction where
  | HORIZONTAL
  | VERTICAL
deriving DecidableEq

/-- Mirrors the `Cell` dataclass of `ascross.py` (field defaults included).
`solution` is `Option Char` since Python initializes it to `None`. -/
structure Cell where
  kind : CellKind := CellKind.OUTSIDE
  solution : Option Char := none
  is_starting_point : Bool := false
  starting_point_num : Int := -1
  wall_right : Bool := false
  wall_bottom : Bool := false
  arrow_down : Bool := false
  arrow_right : Bool := false
deriving DecidableEq

abbrev Grid := List (List Cell)

/-- Python `input_grid.split('\n')` on a character list: split on every
newline, keeping empty pieces; the result is never empty. -/
def splitLines : List Char → List (List Char)
  | [] => [[]]
  | c :: rest =>
    if c = '\n' then [] :: splitLines rest
    else
      match splitLines rest with
      | [] => [[c]]
      | l :: ls => (c :: l) :: ls

/-- The `max_line_len` loop of `parse_grid` (fold with initial value 0). -/
def maxLineLen (lines : List (List Char)) : Nat :=
  lines.foldl (fun m l => max m l.length) 0

/-- Right-padding of one input line with spaces, as in
`[c for c in line] + [' '] * (max_line_len - len(line))`. -/
def padLine (l : List Char) (n : Nat) : List Char :=
  l ++ List.replicate (n - l.length) ' '

/-- The padded `input_grid` built by the first loop of `parse_grid`. -/
def paddedGrid (s : String) : List (List Char) :=
  let lines := splitLines s.toList
  lines.map (fun l => padLine l (maxLineLen lines))

/-- The `match c` classification in the scanning loop of `parse_grid`:
space is OUTSIDE, `#` is BLOCKED, anything else a LETTER whose solution is
the uppercased character, a starting point iff the source character is
uppercase.  Returns the cell and the updated `next_starting_point_num`. -/
def classify (c : Char) (num : Int) : Cell × Int :=
  if c = ' ' then ({ kind := CellKind.OUTSIDE }, num)
  else if c = '#' then ({ kind := CellKind.BLOCKED }, num)
  else if c.isUpper then
    ({ kind := CellKind.LETTER, solution := some c.toUpper,
       is_starting_point := true, starting_point_num := num }, num + 1)
  else
    ({ kind := CellKind.LETTER, solution := some c.toUpper,
       is_starting_point := false }, num)

/-- Mirrors `parse_extended(cell, c)`: updates the cell's modifier flags
and reports whether `c` was a modifier glyph (and was hence consumed). -/
def parse_extended (cell : Cell) (c : Char) : Cell × Bool :=
  if c = '.' then (cell, true)
  else if c = '|' then ({ cell with wall_right := true }, true)
  else if c = '-' then ({ cell with wall_bottom := true }, true)
  else if c = ')' then ({ cell with arrow_down := true }, true)
  else if c = '(' then ({ cell with arrow_right := true }, true)
  else (cell, false)

/-- Whether a character is one of the five extended-cell modifier glyphs. -/
def isModChar (c : Char) : Bool :=
  c = '.' ∨ c = '|' ∨ c = '-' ∨ c = ')' ∨ c = '('

/-- The inner (column) `while` loop of `parse_grid`, phrased structurally
over the padded row's characters: classify the current character, peek at
the following one, and consume it via `parse_extended` when it is a
modifier glyph.  Threads `next_starting_point_num`. -/
def parseRowAux : List Char → Int → List Cell × Int
  | [], num => ([], num)
  | c :: rest, num =>
    let p := classify c num
    match rest with
    | [] => ([p.1], p.2)
    | c2 :: rest2 =>
      let e := parse_extended p.1 c2
      if e.2 then
        let q := parseRowAux rest2 p.2
        (e.1 :: q.1, q.2)
      else
        let q := parseRowAux (c2 :: rest2) p.2
        (p.1 :: q.1, q.2)

/-- The outer (row) loop of `parse_grid`. -/
def parseRows : List (List Char) → Int → List (List Cell)
  | [], _ => []
  | l :: ls, num =>
    let p := parseRowAux l num
    p.1 :: parseRows ls p.2

/-- `parse_grid` of `ascross.py` (structural embedding). -/
def parse_grid (s : String) : Grid :=
  parseRows (paddedGrid s) 1

/-- The random access `input_grid[row_idx][col_idx]` / `grid[r][c]`
(`none` where Python raises `IndexError`). -/
def cellAccess {α : Type} (g : List (List α)) (r c : Nat) : Option α :=
  (g.get? r).bind fun row => row.get? c

/-- Index-based embedding of the column `while` loop of `parse_grid`,
with Python's literal bound checks and random accesses; an out-of-range
access yields `none` (Python `IndexError`). -/
def parseColsE (ig : List (List Char)) (rowIdx colCount : Nat)
    (colIdx : Nat) (num : Int) : Option (List Cell × Int) :=
  if _h : colIdx < colCount then
    match cellAccess ig rowIdx colIdx with
    | none => none
    | some c =>
      let p := classify c num
      if colIdx + 1 < colCount then
        match cellAccess ig rowIdx (colIdx + 1) with
        | none => none
        | some c2 =>
          let e := parse_extended p.1 c2
          if e.2 then
            (parseColsE ig rowIdx colCount (colIdx + 2) p.2).map
              (fun q => (e.1 :: q.1, q.2))
          else
            (parseColsE ig rowIdx colCount (colIdx + 1) p.2).map
              (fun q => (p.1 :: q.1, q.2))
      else
        (parseColsE ig rowIdx colCount (colIdx + 1) p.2).map
          (fun q => (p.1 :: q.1, q.2))
  else some ([], num)
termination_by colCount - colIdx
decreasing_by all_goals omega

/-- Index-based embedding of the row `while` loop of `parse_grid`. -/
def parseRowsE (ig : List (List Char)) (colCount : Nat)
    (rowIdx : Nat) (num : Int) : Option (List (List Cell)) :=
  if _h : rowIdx < ig.length then
    match parseColsE ig rowIdx colCount 0 num with
    | none => none
    | some p => (parseRowsE ig colCount (rowIdx + 1) p.2).map (fun rows => p.1 :: rows)
  else some []
termination_by ig.length - rowIdx
decreasing_by omega

/-- Index-based embedding of `parse_grid`; `input_col_count =
len(input_grid[0])` raises on an empty list, modelled by `none`. -/
def parse_gridE (s : String) : Option Grid :=
  let ig := paddedGrid s
  match ig.head? with
  | none => none
  | some r0 => parseRowsE ig r0.length 0 1

/-- Number of modifier glyphs consumed while scanning a row's characters. -/
def consumedMods : List Char → Nat
  | [] => 0
  | [_] => 0
  | _ :: c2 :: rest =>
    if isModChar c2 then 1 + consumedMods rest else consumedMods (c2 :: rest)

/-- The starting-point numbers of a cell list, in order, restricted to
starting-point cells. -/
def startNums (cells : List Cell) : List Int :=
  (cells.filter (fun c => c.is_starting_point)).map (fun c => c.starting_point_num)

/-- `consecFrom n k` is the list `[n, n+1, ..., n+k-1]`. -/
def consecFrom : Int → Nat → List Int
  | _, 0 => []
  | n, k + 1 => n :: consecFrom (n + 1) k

/-- Well-formedness of a parsed cell: non-starting cells keep the default
number `-1`, and at most one of the two arrow flags is set. -/
def cellTagOk (cell : Cell) : Prop :=
  (cell.is_starting_point = false → cell.starting_point_num = -1) ∧
  ¬(cell.arrow_down = true ∧ cell.arrow_right = true)

/-- Error type of `map_clues`: one constructor per `raise` site, plus the
two runtime exceptions the Python code can hit (`ValueError` from
unpacking `input_clue.split(':', 1)` when the line has no colon, and
`IndexError` from `prefix[0]` when the prefix is empty). -/
inductive MapError where
  | valueError (line : String)
  | indexError
  | ambiguousClue (clueText : String)
  | startingPointReused (clueText : String) (num : Int) (conflicting : List (Int × String))
  | clueNotMapped (line : String)
deriving DecidableEq

/-- The three documented authoring errors of the spec's error taxonomy
(`ClueNotMapped`, `AmbiguousClue`, `StartingPointReused`). -/
def isDocumentedAuthoringError : MapError → Bool
  | MapError.ambiguousClue _ => true
  | MapError.startingPointReused _ _ _ => true
  | MapError.clueNotMapped _ => true
  | _ => false

/-- Python `input_clue.split(':', 1)`: split at the first colon; `none`
when there is no colon (Python then raises `ValueError` unpacking the
1-element list into `prefix, clue_text`). -/
def splitFirstColon : List Char → Option (List Char × List Char)
  | [] => none
  | c :: rest =>
    if c = ':' then some ([], rest)
    else
      match splitFirstColon rest with
      | none => none
      | some p => some (c :: p.1, p.2)

/-- Whether a clue line contains a colon at all. -/
def hasColon : List Char → Bool
  | [] => false
  | c :: rest => if c = ':' then true else hasColon rest

/-- Lexicographic comparison of character lists (Python string `<=`). -/
def charListLe : List Char → List Char → Bool
  | [], _ => true
  | _ :: _, [] => false
  | a :: as, b :: bs => if a = b then charListLe as bs else decide (a < b)

/-- Python tuple `<=` on `(starting_point_num, rendered_text)` pairs. -/
def clueLe (a b : Int × String) : Bool :=
  if a.1 = b.1 then charListLe a.2.toList b.2.toList else decide (a.1 < b.1)

def insertClue (x : Int × String) : List (Int × String) → List (Int × String)
  | [] => [x]
  | y :: ys => if clueLe x y then x :: y :: ys else y :: insertClue x ys

/-- Python `sorted(clues)` (ascending lexicographic on the tuples). -/
def sortClues (l : List (Int × String)) : List (Int × String) :=
  l.foldr insertClue []

/-- Direction switching by arrows (lines 161-164 of `ascross.py`):
`arrow_down` wins over `arrow_right`; otherwise keep the direction. -/
def redirect (cell : Cell) (dir : Direction) : Direction :=
  if cell.arrow_down then Direction.VERTICAL
  else if cell.arrow_right then Direction.HORIZONTAL
  else dir

/-- The wall test that terminates a run (lines 166-172): `wall_right`
when moving horizontally, `wall_bottom` when moving vertically. -/
def wallStop (cell : Cell) : Direction → Bool
  | Direction.HORIZONTAL => cell.wall_right
  | Direction.VERTICAL => cell.wall_bottom

/-- The coordinate step in the current direction. -/
def nextPos : Direction → Nat → Nat → Nat × Nat
  | Direction.HORIZONTAL, r, c => (r, c + 1)
  | Direction.VERTICAL, r, c => (r + 1, c)

/-- Negation of the mismatch test `len(prefix) > i and
letter_cell.solution != prefix[i]` (line 155). -/
def noMismatch (pfx : List Char) (i : Nat) (cell : Cell) : Bool :=
  match pfx.get? i with
  | some pi => cell.solution == some pi
  | none => true

/-- `right_word` after the out-of-letters break (lines 144-152): `false`
iff `i == 1 or i < len(prefix) - 1`. -/
def terminateVerdict (pfx : List Char) (i : Nat) : Bool :=
  !(i == 1 || decide (i < pfx.length - 1))

/-- The run-walking loop `for i in range(1000)` of `map_clues`
(lines 143-173), with state `(right_word, word_length)` made explicit.
`fuel` counts the remaining iterations (initially 1000, so `i = 1000 -
fuel`); when the loop ends without `break`, `right_word` is still `true`. -/
def walkAux (grid : Grid) (pfx : List Char) :
    Nat → Nat → Nat → Nat → Nat → Direction → Bool × Nat
  | 0, _, wl, _, _, _ => (true, wl)
  | fuel + 1, i, wl, r, c, dir =>
    match cellAccess grid r c with
    | none => (terminateVerdict pfx i, wl)
    | some cell =>
      if cell.kind = CellKind.LETTER then
        if noMismatch pfx i cell then
          let dir' := redirect cell dir
          if wallStop cell dir' then (true, wl + 1)
          else
            walkAux grid pfx fuel (i + 1) (wl + 1)
              (nextPos dir' r c).1 (nextPos dir' r c).2 dir'
        else (false, wl)
      else (terminateVerdict pfx i, wl)

/-- One candidate run of `map_clues`, started at `(r, c)`. -/
def walkRun (grid : Grid) (pfx : List Char) (dir : Direction) (r c : Nat) : Bool × Nat :=
  walkAux grid pfx 1000 0 0 r c dir

/-- Scan state of one clue line: `(mapped_clue, used_starting_points,
clues)`. -/
abbrev ScanSt := Bool × List Int × List (Int × String)

/-- The inner `for start_col_idx, cell in enumerate(row)` loop of
`map_clues` (lines 134-182): try every candidate cell of one row. -/
def scanRowCells (grid : Grid) (pfx : List Char) (dir : Direction)
    (clueText : String) (rowIdx : Nat) :
    List Cell → Nat → ScanSt → Except MapError ScanSt
  | [], _, st => Except.ok st
  | cell :: rest, colIdx, st =>
    if cell.kind = CellKind.LETTER ∧ cell.is_starting_point then
      match pfx with
      | [] => Except.error MapError.indexError
      | p0 :: _ =>
        if cell.solution = some p0 then
          let res := walkRun grid pfx dir rowIdx colIdx
          if res.1 then
            if st.1 then Except.error (MapError.ambiguousClue clueText)
            else if cell.starting_point_num ∈ st.2.1 then
              Except.error (MapError.startingPointReused clueText cell.starting_point_num
                (st.2.2.filter (fun cl => cl.1 == cell.starting_point_num)))
            else
              scanRowCells grid pfx dir clueText rowIdx rest (colIdx + 1)
                (true, cell.starting_point_num :: st.2.1,
                 st.2.2 ++ [(cell.starting_point_num,
                   clueText ++ " (" ++ toString res.2 ++ ")")])
          else scanRowCells grid pfx dir clueText rowIdx rest (colIdx + 1) st
        else scanRowCells grid pfx dir clueText rowIdx rest (colIdx + 1) st
    else scanRowCells grid pfx dir clueText rowIdx rest (colIdx + 1) st

/-- The outer `for start_row_idx, row in enumerate(grid)` loop. -/
def scanGridRows (grid : Grid) (pfx : List Char) (dir : Direction)
    (clueText : String) :
    List (List Cell) → Nat → ScanSt → Except MapError ScanSt
  | [], _, st => Except.ok st
  | row :: rows, rowIdx, st =>
    match scanRowCells grid pfx dir clueText rowIdx row 0 st with
    | Except.error e => Except.error e
    | Except.ok st' => scanGridRows grid pfx dir clueText rows (rowIdx + 1) st'

/-- One iteration of the `for input_clue in input_clues.split('\n')` loop
of `map_clues`: split the line at the first colon, uppercase the prefix,
scan the whole grid, and require the clue to be mapped. -/
def processClueLine (grid : Grid) (dir : Direction) (lineChars : List Char)
    (used : List Int) (clues : List (Int × String)) :
    Except MapError (List Int × List (Int × String)) :=
  match splitFirstColon lineChars with
  | none => Except.error (MapError.valueError (String.mk lineChars))
  | some pr =>
    let pfx := pr.1.map Char.toUpper
    let clueText := String.mk pr.2
    match scanGridRows grid pfx dir clueText grid 0 (false, used, clues) with
    | Except.error e => Except.error e
    | Except.ok st =>
      if st.1 then Except.ok (st.2.1, st.2.2)
      else Except.error (MapError.clueNotMapped (String.mk lineChars))

/-- The clue-line loop of `map_clues`, threading `used_starting_points`
and `clues`; ends with `sorted(clues)`. -/
def mapCluesLines (grid : Grid) (dir : Direction) :
    List (List Char) → List Int → List (Int × String) →
    Except MapError (List (Int × String))
  | [], _, clues => Except.ok (sortClues clues)
  | line :: rest, used, clues =>
    match processClueLine grid dir line used clues with
    | Except.error e => Except.error e
    | Except.ok p => mapCluesLines grid dir rest p.1 p.2

/-- `map_clues(grid, input_clues, direction)` of `ascross.py`. -/
def map_clues (grid : Grid) (input_clues : String) (dir : Direction) :
    Except MapError (List (Int × String)) :=
  mapCluesLines grid dir (splitLines input_clues.toList) [] []

/-- The "run" of the spec's glossary, modelled from the spec's words: the
ordered sequence of LETTER cells (as coordinates) traversed from a
starting point in a possibly redirected direction until blocked by grid
bounds, a non-letter cell, or a wall (the wall-bearing cell included),
capped at 1000 steps like the code's loop. -/
def specRun (grid : Grid) : Nat → Nat → Nat → Direction → List (Nat × Nat)
  | 0, _, _, _ => []
  | fuel + 1, r, c, dir =>
    match cellAccess grid r c with
    | none => []
    | some cell =>
      if cell.kind = CellKind.LETTER then
        let dir' := redirect cell dir
        if wallStop cell dir' then [(r, c)]
        else (r, c) :: specRun grid fuel (nextPos dir' r c).1 (nextPos dir' r c).2 dir'
      else []

/-- The kind of the cell at a coordinate, when inside the grid. -/
def cellKindAt (grid : Grid) (r c : Nat) : Option CellKind :=
  (cellAccess grid r c).map Cell.kind

instance {ε α : Type} [DecidableEq ε] [DecidableEq α] : DecidableEq (Except ε α) :=
  fun a b =>
    match a, b with
    | Except.error e, Except.error e' =>
      if h : e = e' then isTrue (by rw [h])
      else isFalse (by intro hh; cases hh; exact h rfl)
    | Except.ok x, Except.ok y =>
      if h : x = y then isTrue (by rw [h])
      else isFalse (by intro hh; cases hh; exact h rfl)
    | Except.error _, Except.ok _ => isFalse (fun hh => Except.noConfusion hh)
    | Except.ok _, Except.error _ => isFalse (fun hh => Except.noConfusion hh)

/-! ### Helper lemmas about the grid parser -/

theorem consecFrom_length : ∀ (n : Int) (k : Nat), (consecFrom n k).length = k := by
  intro n k
  induction k generalizing n with
  | zero => rfl
  | succ k ih => simp [consecFrom, ih]

theorem consecFrom_append : ∀ (k1 : Nat) (n : Int) (k2 : Nat),
    consecFrom n k1 ++ consecFrom (n + k1) k2 = consecFrom n (k1 + k2) := by
  intro k1
  induction k1 with
  | zero => intro n k2; simp [consecFrom]
  | succ k1 ih =>
    intro n k2
    have h : n + ((k1 : Int) + 1) = (n + 1) + k1 := by ring
    simp only [consecFrom, List.cons_append, Nat.succ_add]
    rw [show ((k1 + 1 : Nat) : Int) = (k1 : Int) + 1 by push_cast; ring, h, ih]

theorem startNums_cons (c : Cell) (cs : List Cell) :
    startNums (c :: cs) =
      if c.is_starting_point then c.starting_point_num :: startNums cs else startNums cs := by
  by_cases h : c.is_starting_point <;> simp [startNums, List.filter_cons, h]

theorem startNums_append (a b : List Cell) :
    startNums (a ++ b) = startNums a ++ startNums b := by
  simp [startNums, List.filter_append]

/-- Case analysis of the character classification: either a starting
letter (numbered `n`, counter incremented) or a cell keeping `-1`. -/
theorem classify_spec (c : Char) (n : Int) :
    ((classify c n).1.is_starting_point = true ∧
     (classify c n).1.starting_point_num = n ∧ (classify c n).2 = n + 1) ∨
    ((classify c n).1.is_starting_point = false ∧
     (classify c n).1.starting_point_num = -1 ∧ (classify c n).2 = n) := by
  unfold classify
  split_ifs <;> simp

theorem parse_extended_preserve (cell : Cell) (c : Char) :
    (parse_extended cell c).1.is_starting_point = cell.is_starting_point ∧
    (parse_extended cell c).1.starting_point_num = cell.starting_point_num ∧
    (parse_extended cell c).1.kind = cell.kind ∧
    (parse_extended cell c).1.solution = cell.solution := by
  unfold parse_extended
  split_ifs <;> simp

theorem parse_extended_snd (cell : Cell) (c : Char) :
    (parse_extended cell c).2 = isModChar c := by
  unfold parse_extended isModChar
  split_ifs <;> simp_all

theorem parseRowAux_nil (n : Int) : parseRowAux [] n = ([], n) := rfl

theorem parseRowAux_single (c : Char) (n : Int) :
    parseRowAux [c] n = ([(classify c n).1], (classify c n).2) := rfl

/-- Unfolding of the column loop when the peeked character is a modifier
glyph: it is consumed as a modifier of the current cell (whatever the
current cell's kind) and the scan continues two characters further. -/
theorem parseRowAux_cons_mod (c c2 : Char) (rest : List Char) (n : Int)
    (he : (parse_extended (classify c n).1 c2).2 = true) :
    parseRowAux (c :: c2 :: rest) n =
      ((parse_extended (classify c n).1 c2).1 :: (parseRowAux rest (classify c n).2).1,
       (parseRowAux rest (classify c n).2).2) := by
  simp only [parseRowAux]
  rw [if_pos he]

/-- Unfolding of the column loop when the peeked character is not a
modifier glyph: it starts a new cell. -/
theorem parseRowAux_cons_nomod (c c2 : Char) (rest : List Char) (n : Int)
    (he : (parse_extended (classify c n).1 c2).2 = false) :
    parseRowAux (c :: c2 :: rest) n =
      ((classify c n).1 :: (parseRowAux (c2 :: rest) (classify c n).2).1,
       (parseRowAux (c2 :: rest) (classify c n).2).2) := by
  simp only [parseRowAux]
  rw [if_neg (by rw [he]; exact Bool.false_ne_true)]

theorem classify_tagOk (c : Char) (n : Int) : cellTagOk (classify c n).1 := by
  unfold cellTagOk classify
  split_ifs <;> simp

theorem ext_classify_tagOk (c c2 : Char) (n : Int) :
    cellTagOk (parse_extended (classify c n).1 c2).1 := by
  unfold cellTagOk parse_extended classify
  split_ifs <;> simp

theorem parseRowAux_mem_tagOk :
    ∀ (m : Nat) (cs : List Char) (n : Int) (cell : Cell),
      cs.length ≤ m → cell ∈ (parseRowAux cs n).1 → cellTagOk cell := by
  intro m
  induction m with
  | zero =>
    intro cs n cell hlen hmem
    match cs with
    | [] => simp [parseRowAux_nil] at hmem
    | _ :: _ => simp at hlen
  | succ m ih =>
    intro cs n cell hlen hmem
    match cs with
    | [] => simp [parseRowAux_nil] at hmem
    | [c] =>
      rw [parseRowAux_single] at hmem
      simp only [List.mem_singleton] at hmem
      rw [hmem]
      exact classify_tagOk c n
    | c :: c2 :: rest =>
      cases he : (parse_extended (classify c n).1 c2).2 with
      | true =>
        rw [parseRowAux_cons_mod c c2 rest n he] at hmem
        simp only [List.mem_cons] at hmem
        rcases hmem with h | h
        · rw [h]; exact ext_classify_tagOk c c2 n
        · exact ih rest _ cell (by simp at hlen ⊢; omega) h
      | false =>
        rw [parseRowAux_cons_nomod c c2 rest n he] at hmem
        simp only [List.mem_cons] at hmem
        rcases hmem with h | h
        · rw [h]; exact classify_tagOk c n
        · exact ih (c2 :: rest) _ cell (by simp at hlen ⊢; omega) h

theorem parseRows_mem_tagOk :
    ∀ (ls : List (List Char)) (n : Int) (row : List Cell) (cell : Cell),
      row ∈ parseRows ls n → cell ∈ row → cellTagOk cell := by
  intro ls
  induction ls with
  | nil => intro n row cell hrow; simp [parseRows] at hrow
  | cons l ls ih =>
    intro n row cell hrow hcell
    simp only [parseRows, List.mem_cons] at hrow
    rcases hrow with h | h
    · exact parseRowAux_mem_tagOk l.length l n cell le_rfl (h ▸ hcell)
    · exact ih _ row cell h hcell

theorem startNums_nil : startNums [] = [] := rfl

theorem consecFrom_one (n : Int) : consecFrom n 1 = [n] := rfl

/-- Starting-point numbers produced by one row are consecutive from the
incoming counter, whose final value is the start plus their count. -/
theorem parseRowAux_startNums :
    ∀ (m : Nat) (cs : List Char) (n : Int),
      cs.length ≤ m →
      ∃ k : Nat, (parseRowAux cs n).2 = n + k ∧
        startNums (parseRowAux cs n).1 = consecFrom n k := by
  intro m
  induction m with
  | zero =>
    intro cs n hlen
    match cs with
    | [] => exact ⟨0, by simp [parseRowAux_nil, consecFrom, startNums_nil]⟩
    | _ :: _ => simp at hlen
  | succ m ih =>
    intro cs n hlen
    match cs with
    | [] => exact ⟨0, by simp [parseRowAux_nil, consecFrom, startNums_nil]⟩
    | [c] =>
      rcases classify_spec c n with ⟨hs, hnum, hsnd⟩ | ⟨hs, _, hsnd⟩
      · refine ⟨1, ?_, ?_⟩
        · rw [parseRowAux_single, hsnd]; push_cast; ring
        · rw [parseRowAux_single, startNums_cons, if_pos hs, hnum, startNums_nil,
            consecFrom_one]
      · refine ⟨0, ?_, ?_⟩
        · rw [parseRowAux_single, hsnd]; push_cast; ring
        · rw [parseRowAux_single, startNums_cons, if_neg (by simp [hs]), startNums_nil]
          rfl
    | c :: c2 :: rest =>
      have hlen' : rest.length ≤ m := by simp at hlen ⊢; omega
      have hlen'' : (c2 :: rest).length ≤ m := by simp at hlen ⊢; omega
      have hps := parse_extended_preserve (classify c n).1 c2
      cases he : (parse_extended (classify c n).1 c2).2 with
      | true =>
        rcases classify_spec c n with ⟨hs, hnum, hsnd⟩ | ⟨hs, hnum, hsnd⟩
        · obtain ⟨k, hk1, hk2⟩ := ih rest (n + 1) hlen'
          refine ⟨k + 1, ?_, ?_⟩
          · rw [parseRowAux_cons_mod c c2 rest n he, hsnd, hk1]; push_cast; ring
          · rw [parseRowAux_cons_mod c c2 rest n he, startNums_cons,
              if_pos (by rw [hps.1]; exact hs), hps.2.1, hnum, hsnd, hk2]
            rfl
        · obtain ⟨k, hk1, hk2⟩ := ih rest n hlen'
          refine ⟨k, ?_, ?_⟩
          · rw [parseRowAux_cons_mod c c2 rest n he, hsnd, hk1]
          · rw [parseRowAux_cons_mod c c2 rest n he, startNums_cons,
              if_neg (by rw [hps.1]; simp [hs]), hsnd, hk2]
      | false =>
        rcases classify_spec c n with ⟨hs, hnum, hsnd⟩ | ⟨hs, hnum, hsnd⟩
        · obtain ⟨k, hk1, hk2⟩ := ih (c2 :: rest) (n + 1) hlen''
          refine ⟨k + 1, ?_, ?_⟩
          · rw [parseRowAux_cons_nomod c c2 rest n he, hsnd, hk1]; push_cast; ring
          · rw [parseRowAux_cons_nomod c c2 rest n he, startNums_cons,
              if_pos hs, hnum, hsnd, hk2]
            rfl
        · obtain ⟨k, hk1, hk2⟩ := ih (c2 :: rest) n hlen''
          refine ⟨k, ?_, ?_⟩
          · rw [parseRowAux_cons_nomod c c2 rest n he, hsnd, hk1]
          · rw [parseRowAux_cons_nomod c c2 rest n he, startNums_cons,
              if_neg (by simp [hs]), hsnd, hk2]
theorem parseRows_cons (l : List Char) (ls : List (List Char)) (n : Int) :
    parseRows (l :: ls) n =
      (parseRowAux l n).1 :: parseRows ls (parseRowAux l n).2 := rfl

/-- Starting-point numbers over the whole parsed grid, in row-major
order, are consecutive from the initial counter value. -/
theorem parseRows_startNums :
    ∀ (ls : List (List Char)) (n : Int),
      ∃ k : Nat, startNums (parseRows ls n).flatten = consecFrom n k := by
  intro ls
  induction ls with
  | nil => exact fun n => ⟨0, rfl⟩
  | cons l ls ih =>
    intro n
    obtain ⟨k1, hk1, hrow⟩ := parseRowAux_startNums l.length l n le_rfl
    obtain ⟨k2, hk2⟩ := ih (parseRowAux l n).2
    refine ⟨k1 + k2, ?_⟩
    rw [parseRows_cons]
    have hj : ((parseRowAux l n).1 :: parseRows ls (parseRowAux l n).2).flatten
        = (parseRowAux l n).1 ++ (parseRows ls (parseRowAux l n).2).flatten := rfl
    rw [hj, startNums_append, hrow, hk2, hk1, consecFrom_append]

theorem parseRowAux_length :
    ∀ (m : Nat) (cs : List Char) (n : Int),
      cs.length ≤ m →
      (parseRowAux cs n).1.length + consumedMods cs = cs.length := by
  intro m
  induction m with
  | zero =>
    intro cs n hlen
    match cs with
    | [] => rfl
    | _ :: _ => simp at hlen
  | succ m ih =>
    intro cs n hlen
    match cs with
    | [] => rfl
    | [c] => rfl
    | c :: c2 :: rest =>
      have hlen' : rest.length ≤ m := by simp at hlen ⊢; omega
      have hlen'' : (c2 :: rest).length ≤ m := by simp at hlen ⊢; omega
      cases he : (parse_extended (classify c n).1 c2).2 with
      | true =>
        have hm : isModChar c2 = true := by rw [← parse_extended_snd (classify c n).1 c2, he]
        rw [parseRowAux_cons_mod c c2 rest n he]
        show ((parse_extended (classify c n).1 c2).1 ::
          (parseRowAux rest (classify c n).2).1).length +
          consumedMods (c :: c2 :: rest) = (c :: c2 :: rest).length
        rw [show consumedMods (c :: c2 :: rest) = 1 + consumedMods rest by
          simp [consumedMods, hm]]
        have := ih rest (classify c n).2 hlen'
        simp [List.length_cons] at this ⊢
        omega
      | false =>
        have hm : isModChar c2 = false := by rw [← parse_extended_snd (classify c n).1 c2, he]
        rw [parseRowAux_cons_nomod c c2 rest n he]
        show ((classify c n).1 :: (parseRowAux (c2 :: rest) (classify c n).2).1).length +
          consumedMods (c :: c2 :: rest) = (c :: c2 :: rest).length
        rw [show consumedMods (c :: c2 :: rest) = consumedMods (c2 :: rest) by
          simp [consumedMods, hm]]
        have := ih (c2 :: rest) (classify c n).2 hlen''
        simp [List.length_cons] at this ⊢
        omega

/-- Each parsed row paired with its padded input line satisfies: cell
count plus consumed modifier glyphs equals character count. -/
theorem parseRows_zip_length :
    ∀ (ls : List (List Char)) (n : Int) (p : List Cell × List Char),
      p ∈ (parseRows ls n).zip ls →
      p.1.length + consumedMods p.2 = p.2.length := by
  intro ls
  induction ls with
  | nil => intro n p hp; simp [parseRows] at hp
  | cons l ls ih =>
    intro n p hp
    rw [parseRows_cons] at hp
    simp only [List.zip_cons_cons, List.mem_cons] at hp
    rcases hp with h | h
    · rw [h]
      exact parseRowAux_length l.length l n le_rfl
    · exact ih _ p h

theorem parseRows_length (ls : List (List Char)) :
    ∀ n : Int, (parseRows ls n).length = ls.length := by
  induction ls with
  | nil => intro n; rfl
  | cons l ls ih => intro n; rw [parseRows_cons]; simp [ih]

theorem foldl_max_le_init :
    ∀ (ls : List (List Char)) (a : Nat),
      a ≤ ls.foldl (fun m l => max m l.length) a := by
  intro ls
  induction ls with
  | nil => intro a; exact le_rfl
  | cons l ls ih =>
    intro a
    exact le_trans (Nat.le_max_left a l.length) (ih (max a l.length))

theorem length_le_foldl_max :
    ∀ (ls : List (List Char)) (a : Nat) (l : List Char),
      l ∈ ls → l.length ≤ ls.foldl (fun m x => max m x.length) a := by
  intro ls
  induction ls with
  | nil => intro a l h; simp at h
  | cons x xs ih =>
    intro a l h
    rcases List.mem_cons.mp h with h | h
    · rw [h]
      show x.length ≤ List.foldl (fun m y => max m y.length) (max a x.length) xs
      exact le_trans (Nat.le_max_right a x.length)
        (foldl_max_le_init xs (max a x.length))
    · exact ih (max a x.length) l h

theorem length_le_maxLineLen (lines : List (List Char)) (l : List Char)
    (h : l ∈ lines) : l.length ≤ maxLineLen lines :=
  length_le_foldl_max lines 0 l h

theorem padLine_length (l : List Char) (n : Nat) (h : l.length ≤ n) :
    (padLine l n).length = n := by
  simp [padLine]
  omega

/-- Every line of the padded input grid has exactly `maxLineLen` characters. -/
theorem paddedGrid_row_length (s : String) (l : List Char)
    (h : l ∈ paddedGrid s) : l.length = maxLineLen (splitLines s.toList) := by
  simp only [paddedGrid, List.mem_map] at h
  obtain ⟨l', hl', rfl⟩ := h
  exact padLine_length l' _ (length_le_maxLineLen _ l' hl')

theorem splitLines_ne_nil : ∀ cs : List Char, splitLines cs ≠ [] := by
  intro cs
  induction cs with
  | nil => simp [splitLines]
  | cons c rest ih =>
    simp only [splitLines]
    split_ifs
    · simp
    · cases h : splitLines rest with
      | nil => exact absurd h ih
      | cons l ls => simp

/-! ### Helper lemmas about the run walk of `map_clues` -/

theorem walkAux_zero (grid : Grid) (pfx : List Char) (i wl r c : Nat)
    (dir : Direction) : walkAux grid pfx 0 i wl r c dir = (true, wl) := rfl

theorem walkAux_none (grid : Grid) (pfx : List Char) (fuel i wl r c : Nat)
    (dir : Direction) (h : cellAccess grid r c = none) :
    walkAux grid pfx (fuel + 1) i wl r c dir = (terminateVerdict pfx i, wl) := by
  simp only [walkAux, h]

theorem walkAux_notLetter (grid : Grid) (pfx : List Char) (fuel i wl r c : Nat)
    (dir : Direction) (cell : Cell) (h : cellAccess grid r c = some cell)
    (hk : ¬cell.kind = CellKind.LETTER) :
    walkAux grid pfx (fuel + 1) i wl r c dir = (terminateVerdict pfx i, wl) := by
  simp only [walkAux, h]
  rw [if_neg hk]

theorem walkAux_mismatch (grid : Grid) (pfx : List Char) (fuel i wl r c : Nat)
    (dir : Direction) (cell : Cell) (h : cellAccess grid r c = some cell)
    (hk : cell.kind = CellKind.LETTER) (hm : noMismatch pfx i cell = false) :
    walkAux grid pfx (fuel + 1) i wl r c dir = (false, wl) := by
  simp only [walkAux, h]
  rw [if_pos hk, if_neg (by rw [hm]; exact Bool.false_ne_true)]

theorem walkAux_wall (grid : Grid) (pfx : List Char) (fuel i wl r c : Nat)
    (dir : Direction) (cell : Cell) (h : cellAccess grid r c = some cell)
    (hk : cell.kind = CellKind.LETTER) (hm : noMismatch pfx i cell = true)
    (hw : wallStop cell (redirect cell dir) = true) :
    walkAux grid pfx (fuel + 1) i wl r c dir = (true, wl + 1) := by
  simp only [walkAux, h]
  rw [if_pos hk, if_pos hm, if_pos hw]

theorem walkAux_step (grid : Grid) (pfx : List Char) (fuel i wl r c : Nat)
    (dir : Direction) (cell : Cell) (h : cellAccess grid r c = some cell)
    (hk : cell.kind = CellKind.LETTER) (hm : noMismatch pfx i cell = true)
    (hw : wallStop cell (redirect cell dir) = false) :
    walkAux grid pfx (fuel + 1) i wl r c dir =
      walkAux grid pfx fuel (i + 1) (wl + 1)
        (nextPos (redirect cell dir) r c).1 (nextPos (redirect cell dir) r c).2
        (redirect cell dir) := by
  simp only [walkAux, h]
  rw [if_pos hk, if_pos hm, if_neg (by rw [hw]; exact Bool.false_ne_true)]

theorem specRun_zero (grid : Grid) (r c : Nat) (dir : Direction) :
    specRun grid 0 r c dir = [] := rfl

theorem specRun_none (grid : Grid) (fuel r c : Nat) (dir : Direction)
    (h : cellAccess grid r c = none) : specRun grid (fuel + 1) r c dir = [] := by
  simp only [specRun, h]

theorem specRun_notLetter (grid : Grid) (fuel r c : Nat) (dir : Direction)
    (cell : Cell) (h : cellAccess grid r c = some cell)
    (hk : ¬cell.kind = CellKind.LETTER) : specRun grid (fuel + 1) r c dir = [] := by
  simp only [specRun, h]
  rw [if_neg hk]

theorem specRun_wall (grid : Grid) (fuel r c : Nat) (dir : Direction)
    (cell : Cell) (h : cellAccess grid r c = some cell)
    (hk : cell.kind = CellKind.LETTER)
    (hw : wallStop cell (redirect cell dir) = true) :
    specRun grid (fuel + 1) r c dir = [(r, c)] := by
  simp only [specRun, h]
  rw [if_pos hk, if_pos hw]

theorem specRun_step (grid : Grid) (fuel r c : Nat) (dir : Direction)
    (cell : Cell) (h : cellAccess grid r c = some cell)
    (hk : cell.kind = CellKind.LETTER)
    (hw : wallStop cell (redirect cell dir) = false) :
    specRun grid (fuel + 1) r c dir =
      (r, c) :: specRun grid fuel (nextPos (redirect cell dir) r c).1
        (nextPos (redirect cell dir) r c).2 (redirect cell dir) := by
  simp only [specRun, h]
  rw [if_pos hk, if_neg (by rw [hw]; exact Bool.false_ne_true)]

/-- Whenever the walking loop accepts (`right_word` still true), the
`word_length` it accumulated equals the number of cells of the (spec-level)
run starting at the same position. -/
theorem walkAux_specRun :
    ∀ (fuel : Nat) (grid : Grid) (pfx : List Char) (i wl r c : Nat)
      (dir : Direction),
      (walkAux grid pfx fuel i wl r c dir).1 = true →
      (walkAux grid pfx fuel i wl r c dir).2 = wl + (specRun grid fuel r c dir).length := by
  intro fuel
  induction fuel with
  | zero =>
    intro grid pfx i wl r c dir _
    rw [walkAux_zero, specRun_zero]
    rfl
  | succ fuel ih =>
    intro grid pfx i wl r c dir htrue
    cases h : cellAccess grid r c with
    | none =>
      rw [walkAux_none grid pfx fuel i wl r c dir h, specRun_none grid fuel r c dir h]
      rfl
    | some cell =>
      by_cases hk : cell.kind = CellKind.LETTER
      · cases hm : noMismatch pfx i cell with
        | false =>
          rw [walkAux_mismatch grid pfx fuel i wl r c dir cell h hk hm] at htrue
          simp at htrue
        | true =>
          cases hw : wallStop cell (redirect cell dir) with
          | true =>
            rw [walkAux_wall grid pfx fuel i wl r c dir cell h hk hm hw,
              specRun_wall grid fuel r c dir cell h hk hw]
            rfl
          | false =>
            rw [walkAux_step grid pfx fuel i wl r c dir cell h hk hm hw] at htrue ⊢
            rw [specRun_step grid fuel r c dir cell h hk hw]
            rw [ih grid pfx (i + 1) (wl + 1) _ _ _ htrue]
            simp [List.length_cons]
            omega
      · rw [walkAux_notLetter grid pfx fuel i wl r c dir cell h hk,
          specRun_notLetter grid fuel r c dir cell h hk]
        rfl

/-! ### Helper lemmas about the candidate scan and the clue-line loop -/

/-- When a candidate succeeds on a fresh (`mapped_clue = false`) state and
its starting point is not yet used, the scan records the rendered clue
`"<text> (<word_length>)"` and marks the number used. -/
theorem scanRowCells_success_step (grid : Grid) (dir : Direction)
    (clueText : String) (rowIdx colIdx : Nat) (cell : Cell) (rest : List Cell)
    (used : List Int) (clues : List (Int × String)) (p0 : Char) (ps : List Char)
    (hk : cell.kind = CellKind.LETTER) (hs : cell.is_starting_point = true)
    (hsol : cell.solution = some p0)
    (hw : (walkRun grid (p0 :: ps) dir rowIdx colIdx).1 = true)
    (hused : cell.starting_point_num ∉ used) :
    scanRowCells grid (p0 :: ps) dir clueText rowIdx (cell :: rest) colIdx
        (false, used, clues) =
      scanRowCells grid (p0 :: ps) dir clueText rowIdx rest (colIdx + 1)
        (true, cell.starting_point_num :: used,
         clues ++ [(cell.starting_point_num,
           clueText ++ " (" ++ toString (walkRun grid (p0 :: ps) dir rowIdx colIdx).2 ++ ")")]) := by
  simp only [scanRowCells]
  rw [if_pos ⟨hk, hs⟩, if_pos hsol, if_pos hw,
    if_neg (by exact Bool.false_ne_true), if_neg hused]

/-- When a candidate succeeds but its starting-point number was already
consumed by an earlier clue of the same pass, the scan fails with
`StartingPointReused`, reporting the conflicting already-mapped clues. -/
theorem scanRowCells_reused_step (grid : Grid) (dir : Direction)
    (clueText : String) (rowIdx colIdx : Nat) (cell : Cell) (rest : List Cell)
    (used : List Int) (clues : List (Int × String)) (p0 : Char) (ps : List Char)
    (hk : cell.kind = CellKind.LETTER) (hs : cell.is_starting_point = true)
    (hsol : cell.solution = some p0)
    (hw : (walkRun grid (p0 :: ps) dir rowIdx colIdx).1 = true)
    (hused : cell.starting_point_num ∈ used) :
    scanRowCells grid (p0 :: ps) dir clueText rowIdx (cell :: rest) colIdx
        (false, used, clues) =
      Except.error (MapError.startingPointReused clueText cell.starting_point_num
        (clues.filter (fun cl => cl.1 == cell.starting_point_num))) := by
  simp only [scanRowCells]
  rw [if_pos ⟨hk, hs⟩, if_pos hsol, if_pos hw,
    if_neg (by exact Bool.false_ne_true), if_pos hused]

theorem splitFirstColon_none :
    ∀ cs : List Char, hasColon cs = false → splitFirstColon cs = none := by
  intro cs
  induction cs with
  | nil => intro _; rfl
  | cons c rest ih =>
    intro h
    simp only [hasColon] at h
    by_cases hc : c = ':'
    · rw [if_pos hc] at h
      exact absurd h (by simp)
    · rw [if_neg hc] at h
      simp only [splitFirstColon]
      rw [if_neg hc, ih h]

/-- A clue line without a colon makes `processClueLine` fail with a
`ValueError` (the tuple-unpacking of `split(':', 1)`). -/
theorem processClueLine_noColon (grid : Grid) (dir : Direction)
    (line : List Char) (used : List Int) (clues : List (Int × String))
    (h : hasColon line = false) :
    processClueLine grid dir line used clues =
      Except.error (MapError.valueError (String.mk line)) := by
  unfold processClueLine
  rw [splitFirstColon_none line h]

/-- If the clue-line loop returns successfully, every processed line
contained a colon (no line is skipped or absorbed). -/
theorem mapCluesLines_ok_hasColon :
    ∀ (lines : List (List Char)) (grid : Grid) (dir : Direction)
      (used : List Int) (clues res : List (Int × String)),
      mapCluesLines grid dir lines used clues = Except.ok res →
      ∀ line ∈ lines, hasColon line = true := by
  intro lines
  induction lines with
  | nil => intro grid dir used clues res _ line hmem; simp at hmem
  | cons l rest ih =>
    intro grid dir used clues res hok line hmem
    simp only [mapCluesLines] at hok
    cases hp : processClueLine grid dir l used clues with
    | error e => rw [hp] at hok; exact absurd hok (by simp)
    | ok p =>
      rw [hp] at hok
      rcases List.mem_cons.mp hmem with hl | hl
      · subst hl
        cases hc : hasColon line with
        | true => rfl
        | false =>
          rw [processClueLine_noColon grid dir line used clues hc] at hp
          exact absurd hp (by simp)
      · exact ih grid dir p.1 p.2 res hok line hl

/-! ### Equivalence of the index-based and structural parser embeddings -/

theorem drop_cons_of_get? {α : Type} :
    ∀ (l : List α) (i : Nat) (a : α), l.get? i = some a →
      l.drop i = a :: l.drop (i + 1) := by
  intro l
  induction l with
  | nil => intro i a h; simp at h
  | cons x xs ih =>
    intro i a h
    cases i with
    | zero => simp at h; rw [h]; rfl
    | succ i =>
      simp only [List.get?] at h
      rw [List.drop_succ_cons, ih i a h]
      rfl

theorem cellAccess_of_row {α : Type} (g : List (List α)) (row : List α)
    (r c : Nat) (hrow : g.get? r = some row) :
    cellAccess g r c = row.get? c := by
  unfold cellAccess
  rw [hrow]
  rfl

theorem parseColsE_stop (ig : List (List Char)) (rowIdx colCount colIdx : Nat)
    (num : Int) (hge : ¬colIdx < colCount) :
    parseColsE ig rowIdx colCount colIdx num = some ([], num) := by
  rw [parseColsE, dif_neg hge]

/-- The index-based column loop agrees with the structural one: on a row
of exactly `colCount` characters it returns the cells of `parseRowAux`
applied to the remaining characters (in particular, it never hits an
out-of-range access). -/
theorem parseColsE_eq :
    ∀ (m : Nat) (ig : List (List Char)) (rowIdx colCount : Nat)
      (row : List Char) (colIdx : Nat) (num : Int),
      ig.get? rowIdx = some row → row.length = colCount →
      colCount - colIdx ≤ m →
      parseColsE ig rowIdx colCount colIdx num =
        some (parseRowAux (row.drop colIdx) num) := by
  intro m
  induction m with
  | zero =>
    intro ig rowIdx colCount row colIdx num hrow hlen hm
    have hge : ¬colIdx < colCount := by omega
    rw [parseColsE_stop ig rowIdx colCount colIdx num hge,
      List.drop_eq_nil_of_le (by omega), parseRowAux_nil]
  | succ m ih =>
    intro ig rowIdx colCount row colIdx num hrow hlen hm
    by_cases hlt : colIdx < colCount
    · cases hrc : row.get? colIdx with
      | none => rw [List.get?_eq_none] at hrc; omega
      | some c =>
        have hacc : cellAccess ig rowIdx colIdx = some c := by
          rw [cellAccess_of_row ig row rowIdx colIdx hrow, hrc]
        have hdrop := drop_cons_of_get? row colIdx c hrc
        rw [parseColsE, dif_pos hlt, hdrop]
        simp only [hacc]
        by_cases hlt2 : colIdx + 1 < colCount
        · cases hrc2 : row.get? (colIdx + 1) with
          | none => rw [List.get?_eq_none] at hrc2; omega
          | some c2 =>
            have hacc2 : cellAccess ig rowIdx (colIdx + 1) = some c2 := by
              rw [cellAccess_of_row ig row rowIdx (colIdx + 1) hrow, hrc2]
            have hdrop2 := drop_cons_of_get? row (colIdx + 1) c2 hrc2
            rw [if_pos hlt2]
            simp only [hacc2]
            rw [hdrop2]
            cases he : (parse_extended (classify c num).1 c2).2 with
            | true =>
              rw [if_pos rfl,
                ih ig rowIdx colCount row (colIdx + 2) (classify c num).2 hrow hlen
                  (by omega),
                parseRowAux_cons_mod c c2 _ num he]
              rfl
            | false =>
              rw [if_neg (by exact Bool.false_ne_true),
                ih ig rowIdx colCount row (colIdx + 1) (classify c num).2 hrow hlen
                  (by omega),
                hdrop2, parseRowAux_cons_nomod c c2 _ num he]
              rfl
        · rw [if_neg hlt2,
            ih ig rowIdx colCount row (colIdx + 1) (classify c num).2 hrow hlen
              (by omega),
            List.drop_eq_nil_of_le (by omega), parseRowAux_nil, parseRowAux_single]
          rfl
    · rw [parseColsE_stop ig rowIdx colCount colIdx num hlt,
        List.drop_eq_nil_of_le (by omega), parseRowAux_nil]

theorem parseRowsE_stop (ig : List (List Char)) (colCount rowIdx : Nat)
    (num : Int) (hge : ¬rowIdx < ig.length) :
    parseRowsE ig colCount rowIdx num = some [] := by
  rw [parseRowsE, dif_neg hge]

/-- The index-based row loop agrees with the structural one when all rows
of the padded input have exactly `colCount` characters. -/
theorem parseRowsE_eq :
    ∀ (m : Nat) (ig : List (List Char)) (colCount rowIdx : Nat) (num : Int),
      (∀ row ∈ ig, row.length = colCount) →
      ig.length - rowIdx ≤ m →
      parseRowsE ig colCount rowIdx num =
        some (parseRows (ig.drop rowIdx) num) := by
  intro m
  induction m with
  | zero =>
    intro ig colCount rowIdx num _ hm
    have hge : ¬rowIdx < ig.length := by omega
    rw [parseRowsE_stop ig colCount rowIdx num hge,
      List.drop_eq_nil_of_le (by omega)]
    rfl
  | succ m ih =>
    intro ig colCount rowIdx num hall hm
    by_cases hlt : rowIdx < ig.length
    · cases hrow : ig.get? rowIdx with
      | none => rw [List.get?_eq_none] at hrow; omega
      | some row =>
        have hlen : row.length = colCount := hall row (List.get?_mem hrow)
        have hcols := parseColsE_eq colCount ig rowIdx colCount row 0 num hrow hlen
          (by omega)
        rw [parseRowsE, dif_pos hlt]
        simp only [hcols]
        rw [ih ig colCount (rowIdx + 1) (parseRowAux (row.drop 0) num).2 hall (by omega)]
        rw [drop_cons_of_get? ig rowIdx row hrow, List.drop_zero]
        rfl
    · rw [parseRowsE_stop ig colCount rowIdx num hlt,
        List.drop_eq_nil_of_le (by omega)]
      rfl

/-- The index-based embedding of `parse_grid` never hits an index error
and agrees with the structural embedding. -/
theorem parse_gridE_eq (s : String) : parse_gridE s = some (parse_grid s) := by
  unfold parse_gridE parse_grid
  cases hg : paddedGrid s with
  | nil =>
    exfalso
    have : splitLines s.toList ≠ [] := splitLines_ne_nil s.toList
    unfold paddedGrid at hg
    rw [List.map_eq_nil_iff] at hg
    exact this hg
  | cons r0 rows =>
    show parseRowsE (r0 :: rows) r0.length 0 1 = some (parseRows (r0 :: rows) 1)
    have hall : ∀ row ∈ r0 :: rows, row.length = r0.length := by
      intro row hrow
      rw [paddedGrid_row_length s row (hg ▸ hrow),
        ← paddedGrid_row_length s r0 (hg ▸ List.mem_cons_self r0 rows)]
    have := parseRowsE_eq (r0 :: rows).length (r0 :: rows) r0.length 0 1 hall le_rfl
    rw [List.drop_zero] at this
    exact this

theorem terminateVerdict_one (pfx : List Char) : terminateVerdict pfx 1 = false := by
  simp [terminateVerdict]

/-! ### Claim theorems -/

/-- C1 (code bug): contrary to the claim (and to the code's own comment
"prefix not fully matched"), a candidate whose run terminates at step
`i = len(prefix) - 1` is ACCEPTED even though the last prefix character
was never compared.  On the grid `"CA"` with clue `"CAT:x"` scanned
horizontally, the run covers only the two letters `C`, `A` and terminates
at the grid bound with `i = 2 = len("CAT") - 1`; the condition
`i == 1 or i < len(prefix) - 1` is false, so the clue is mapped with word
length 2 although `'T'` was never matched against any cell. -/
theorem ascross_C1_bug :
    map_clues (parse_grid "CA") "CAT:x" Direction.HORIZONTAL =
      Except.ok [(1, "x (2)")] ∧
    walkRun (parse_grid "CA") ['C', 'A', 'T'] Direction.HORIZONTAL 0 0 = (true, 2) ∧
    (['C', 'A', 'T'] : List Char).length = 3 := by
  refine ⟨by decide, by decide, by decide⟩

/-- C2 counterexample: a candidate whose run contains exactly one letter
cell is NOT always rejected: on the grid `"A|"` (a single letter with
`wall_right`) the horizontal clue `"A:w"` is accepted with word length 1,
because the wall `break` (line 168) skips the `i == 1` one-letter check of
the out-of-letters branch. -/
theorem ascross_C2_cex :
    map_clues (parse_grid "A|") "A:w" Direction.HORIZONTAL =
      Except.ok [(1, "w (1)")] ∧
    walkRun (parse_grid "A|") ['A'] Direction.HORIZONTAL 0 0 = (true, 1) := by
  refine ⟨by decide, by decide⟩

/-- C2 (amended): a candidate run that finds exactly one letter cell is
rejected when the run is terminated by grid bounds or by a non-letter
cell (the `i == 1` check); but a run of exactly one letter terminated by
a wall on its first cell is accepted. -/
theorem ascross_C2_amended :
    (∀ (grid : Grid) (pfx : List Char) (dir : Direction) (fuel wl r c : Nat)
        (cell : Cell),
        cellAccess grid r c = some cell → cell.kind = CellKind.LETTER →
        noMismatch pfx 0 cell = true →
        wallStop cell (redirect cell dir) = false →
        cellKindAt grid (nextPos (redirect cell dir) r c).1
            (nextPos (redirect cell dir) r c).2 ≠ some CellKind.LETTER →
        walkAux grid pfx (fuel + 2) 0 wl r c dir = (false, wl + 1)) ∧
    (∀ (grid : Grid) (pfx : List Char) (dir : Direction) (fuel wl r c : Nat)
        (cell : Cell),
        cellAccess grid r c = some cell → cell.kind = CellKind.LETTER →
        noMismatch pfx 0 cell = true →
        wallStop cell (redirect cell dir) = true →
        walkAux grid pfx (fuel + 1) 0 wl r c dir = (true, wl + 1)) := by
  constructor
  · intro grid pfx dir fuel wl r c cell hacc hk hnm hws hnext
    rw [walkAux_step grid pfx (fuel + 1) 0 wl r c dir cell hacc hk hnm hws]
    cases hnx : cellAccess grid (nextPos (redirect cell dir) r c).1
        (nextPos (redirect cell dir) r c).2 with
    | none =>
      rw [walkAux_none grid pfx fuel 1 (wl + 1) _ _ _ hnx, terminateVerdict_one]
    | some cell2 =>
      have hk2 : ¬cell2.kind = CellKind.LETTER := by
        intro hkeq
        apply hnext
        unfold cellKindAt
        rw [hnx]
        simp [hkeq]
      rw [walkAux_notLetter grid pfx fuel 1 (wl + 1) _ _ _ cell2 hnx hk2,
        terminateVerdict_one]
  · intro grid pfx dir fuel wl r c cell hacc hk hnm hws
    exact walkAux_wall grid pfx fuel 0 wl r c dir cell hacc hk hnm hws

/-- Witness for the amended C2, on the grids `"A"` (single letter, run
stopped by the grid bound: rejected) and `"A|"` (single letter with a
right wall: accepted). -/
theorem ascross_C2_witness :
    walkAux (parse_grid "A") ['A'] 2 0 0 0 0 Direction.HORIZONTAL = (false, 0 + 1) ∧
    walkAux (parse_grid "A|") ['A'] 1 0 0 0 0 Direction.HORIZONTAL = (true, 0 + 1) := by
  constructor
  · exact ascross_C2_amended.1 (parse_grid "A") ['A'] Direction.HORIZONTAL 0 0 0 0
      { kind := CellKind.LETTER, solution := some 'A', is_starting_point := true,
        starting_point_num := 1 }
      (by decide) (by decide) (by decide) (by decide) (by decide)
  · exact ascross_C2_amended.2 (parse_grid "A|") ['A'] Direction.HORIZONTAL 0 0 0 0
      { kind := CellKind.LETTER, solution := some 'A', is_starting_point := true,
        starting_point_num := 1, wall_right := true }
      (by decide) (by decide) (by decide) (by decide)

/-- C3 counterexample: on the input `"A|\nBC"` (first line uses the
extended two-character cell syntax) the first row of the parsed grid has
1 cell while the longest input line has 2 characters, so not every row
has length `max_line_len`. -/
theorem ascross_C3_cex :
    ¬∀ row ∈ parse_grid "A|\nBC",
        row.length = maxLineLen (splitLines (String.toList "A|\nBC")) := by
  decide

/-- C3 (amended): the parsed grid has one row per (padded) input line;
every padded line has exactly `max_line_len` characters; and each row's
cell count equals `max_line_len` minus the number of modifier glyphs
consumed in that line — so rows all have length `max_line_len` exactly
when no extended-cell modifier is consumed. -/
theorem ascross_C3_amended :
    ∀ s : String,
      (parse_grid s).length = (paddedGrid s).length ∧
      ∀ p ∈ (parse_grid s).zip (paddedGrid s),
        p.2.length = maxLineLen (splitLines s.toList) ∧
        p.1.length + consumedMods p.2 = maxLineLen (splitLines s.toList) := by
  intro s
  constructor
  · exact parseRows_length (paddedGrid s) 1
  · intro p hp
    obtain ⟨cells, line⟩ := p
    have hline : line ∈ paddedGrid s := (List.of_mem_zip hp).2
    have hlen := paddedGrid_row_length s line hline
    refine ⟨hlen, ?_⟩
    have hz := parseRows_zip_length (paddedGrid s) 1 (cells, line) hp
    rw [← hlen]
    exact hz

/-- Witness for the amended C3 at the first row of `"A|\nBC"`. -/
theorem ascross_C3_witness :
    (([{ kind := CellKind.LETTER, solution := some 'A', is_starting_point := true,
         starting_point_num := 1, wall_right := true }], ['A', '|']) :
        List Cell × List Char) ∈ (parse_grid "A|\nBC").zip (paddedGrid "A|\nBC") ∧
    ([{ kind := CellKind.LETTER, solution := some 'A', is_starting_point := true,
        starting_point_num := 1, wall_right := true }] : List Cell).length +
      consumedMods ['A', '|'] = maxLineLen (splitLines (String.toList "A|\nBC")) :=
  ⟨by decide, ((ascross_C3_amended "A|\nBC").2
      ([{ kind := CellKind.LETTER, solution := some 'A', is_starting_point := true,
          starting_point_num := 1, wall_right := true }], ['A', '|'])
      (by decide)).2⟩

/-- C4 counterexample: after a cell classified OUTSIDE (a space), a
following modifier glyph is still consumed: `parse_grid " |"` yields a
single OUTSIDE cell carrying `wall_right`, not two cells. -/
theorem ascross_C4_cex :
    parse_grid " |" = [[{ kind := CellKind.OUTSIDE, wall_right := true }]] ∧
    (parse_grid " |").map List.length ≠ [2] := by
  refine ⟨by decide, by decide⟩

/-- C4 (amended): a following modifier glyph is consumed as a modifier of
the current cell regardless of the current cell's classification (LETTER,
BLOCKED or OUTSIDE), whenever the current cell is not in the last column. -/
theorem ascross_C4_amended :
    ∀ (c c2 : Char) (rest : List Char) (n : Int),
      isModChar c2 = true →
      parseRowAux (c :: c2 :: rest) n =
        ((parse_extended (classify c n).1 c2).1 ::
           (parseRowAux rest (classify c n).2).1,
         (parseRowAux rest (classify c n).2).2) := by
  intro c c2 rest n h
  exact parseRowAux_cons_mod c c2 rest n (by rw [parse_extended_snd, h])

/-- Witness for the amended C4: a `|` following a space is consumed. -/
theorem ascross_C4_witness :
    isModChar '|' = true ∧
    parseRowAux [' ', '|'] 1 =
      ((parse_extended (classify ' ' 1).1 '|').1 ::
         (parseRowAux [] (classify ' ' 1).2).1,
       (parseRowAux [] (classify ' ' 1).2).2) :=
  ⟨by decide, ascross_C4_amended ' ' '|' [] 1 (by decide)⟩

/-- C5: the starting-point numbers of the parsed grid, read in row-major
order over the starting cells, are exactly `1, 2, 3, ...` (consecutive,
starting at 1, strictly increasing in scan order), and every
non-starting cell keeps `starting_point_num = -1`. -/
theorem ascross_C5 :
    ∀ s : String,
      startNums (parse_grid s).flatten =
        consecFrom 1 (startNums (parse_grid s).flatten).length ∧
      ∀ cell ∈ (parse_grid s).flatten,
        cell.is_starting_point = false → cell.starting_point_num = -1 := by
  intro s
  constructor
  · obtain ⟨k, hk⟩ := parseRows_startNums (paddedGrid s) 1
    show startNums (parseRows (paddedGrid s) 1).flatten =
      consecFrom 1 (startNums (parseRows (paddedGrid s) 1).flatten).length
    rw [hk, consecFrom_length]
  · intro cell hmem hns
    rw [List.mem_flatten] at hmem
    obtain ⟨row, hrow, hcell⟩ := hmem
    exact (parseRows_mem_tagOk (paddedGrid s) 1 row cell hrow hcell).1 hns

/-- Witness for C5 on the grid `"Ab"` (cell `b` is a non-starting letter). -/
theorem ascross_C5_witness :
    startNums (parse_grid "Ab").flatten =
      consecFrom 1 (startNums (parse_grid "Ab").flatten).length ∧
    ({ kind := CellKind.LETTER, solution := some 'B' } : Cell).starting_point_num = -1 :=
  ⟨(ascross_C5 "Ab").1,
   (ascross_C5 "Ab").2 { kind := CellKind.LETTER, solution := some 'B' }
     (by decide) (by decide)⟩

/-- C6: for every successfully mapped candidate, the reported word length
equals the number of LETTER cells of the run (as defined by the spec's
glossary, `specRun`), including the terminating wall-bearing cell; and the
rendered clue text records exactly that length as
`"<clue text> (<word_length>)"`. -/
theorem ascross_C6 :
    (∀ (grid : Grid) (pfx : List Char) (dir : Direction) (r c w : Nat),
        walkRun grid pfx dir r c = (true, w) →
        w = (specRun grid 1000 r c dir).length) ∧
    (∀ (grid : Grid) (dir : Direction) (clueText : String) (rowIdx colIdx : Nat)
        (cell : Cell) (rest : List Cell) (used : List Int)
        (clues : List (Int × String)) (p0 : Char) (ps : List Char),
        cell.kind = CellKind.LETTER → cell.is_starting_point = true →
        cell.solution = some p0 →
        (walkRun grid (p0 :: ps) dir rowIdx colIdx).1 = true →
        cell.starting_point_num ∉ used →
        scanRowCells grid (p0 :: ps) dir clueText rowIdx (cell :: rest) colIdx
            (false, used, clues) =
          scanRowCells grid (p0 :: ps) dir clueText rowIdx rest (colIdx + 1)
            (true, cell.starting_point_num :: used,
             clues ++ [(cell.starting_point_num,
               clueText ++ " (" ++
                 toString (walkRun grid (p0 :: ps) dir rowIdx colIdx).2 ++ ")")])) := by
  constructor
  · intro grid pfx dir r c w hw
    have h1 : (walkAux grid pfx 1000 0 0 r c dir).1 = true := by
      show (walkRun grid pfx dir r c).1 = true
      rw [hw]
    have h2 := walkAux_specRun 1000 grid pfx 0 0 r c dir h1
    have h3 : (walkRun grid pfx dir r c).2 =
        0 + (specRun grid 1000 r c dir).length := h2
    rw [hw] at h3
    simpa using h3
  · intro grid dir clueText rowIdx colIdx cell rest used clues p0 ps hk hs hsol hw hused
    exact scanRowCells_success_step grid dir clueText rowIdx colIdx cell rest used
      clues p0 ps hk hs hsol hw hused

/-- Witness for C6 on scenario E: grid `"A-\nB"`, vertical clue prefix
`"A"`: the run stops at the wall-bearing cell inclusively (length 1) even
though the cell below is a valid LETTER. -/
theorem ascross_C6_witness :
    walkRun (parse_grid "A-\nB") ['A'] Direction.VERTICAL 0 0 = (true, 1) ∧
    1 = (specRun (parse_grid "A-\nB") 1000 0 0 Direction.VERTICAL).length ∧
    cellKindAt (parse_grid "A-\nB") 1 0 = some CellKind.LETTER :=
  ⟨by decide,
   ascross_C6.1 (parse_grid "A-\nB") ['A'] Direction.VERTICAL 0 0 1 (by decide),
   by decide⟩

/-- C7: reaching a cell with `arrow_down` switches the run direction to
VERTICAL from that cell on (the next visited coordinate is the one below,
whatever the incoming direction, including at the very first cell of the
run); `arrow_right` (when `arrow_down` is unset) switches to HORIZONTAL;
and `parse_grid` never produces a cell with both arrow flags set, so the
`arrow_down`-wins priority of the code never masks an `arrow_right`. -/
theorem ascross_C7 :
    (∀ (grid : Grid) (pfx : List Char) (fuel i wl r c : Nat) (dir : Direction)
        (cell : Cell),
        cellAccess grid r c = some cell → cell.kind = CellKind.LETTER →
        noMismatch pfx i cell = true → cell.arrow_down = true →
        cell.wall_bottom = false →
        walkAux grid pfx (fuel + 1) i wl r c dir =
          walkAux grid pfx fuel (i + 1) (wl + 1) (r + 1) c Direction.VERTICAL) ∧
    (∀ (grid : Grid) (pfx : List Char) (fuel i wl r c : Nat) (dir : Direction)
        (cell : Cell),
        cellAccess grid r c = some cell → cell.kind = CellKind.LETTER →
        noMismatch pfx i cell = true → cell.arrow_down = false →
        cell.arrow_right = true → cell.wall_right = false →
        walkAux grid pfx (fuel + 1) i wl r c dir =
          walkAux grid pfx fuel (i + 1) (wl + 1) r (c + 1) Direction.HORIZONTAL) ∧
    (∀ (s : String) (row : List Cell) (cell : Cell),
        row ∈ parse_grid s → cell ∈ row →
        ¬(cell.arrow_down = true ∧ cell.arrow_right = true)) := by
  refine ⟨?_, ?_, ?_⟩
  · intro grid pfx fuel i wl r c dir cell hacc hk hnm had hwb
    have hdir : redirect cell dir = Direction.VERTICAL := by
      simp [redirect, had]
    have hws : wallStop cell (redirect cell dir) = false := by
      rw [hdir]
      exact hwb
    have h := walkAux_step grid pfx fuel i wl r c dir cell hacc hk hnm hws
    rw [hdir] at h
    exact h
  · intro grid pfx fuel i wl r c dir cell hacc hk hnm had har hwr
    have hdir : redirect cell dir = Direction.HORIZONTAL := by
      simp [redirect, had, har]
    have hws : wallStop cell (redirect cell dir) = false := by
      rw [hdir]
      exact hwr
    have h := walkAux_step grid pfx fuel i wl r c dir cell hacc hk hnm hws
    rw [hdir] at h
    exact h
  · intro s row cell hrow hcell
    exact (parseRows_mem_tagOk (paddedGrid s) 1 row cell hrow hcell).2

/-- Witness for C7: on `"A)"` (arrow-down cell) a HORIZONTAL scan steps to
the cell below as its second position; on `"A("` (arrow-right cell) a
VERTICAL scan steps to the cell at the right; and the parsed arrow cells
never carry both flags. -/
theorem ascross_C7_witness :
    walkAux (parse_grid "A)") ['A'] 1000 0 0 0 0 Direction.HORIZONTAL =
      walkAux (parse_grid "A)") ['A'] 999 1 1 1 0 Direction.VERTICAL ∧
    walkAux (parse_grid "A(") ['A'] 1000 0 0 0 0 Direction.VERTICAL =
      walkAux (parse_grid "A(") ['A'] 999 1 1 0 1 Direction.HORIZONTAL ∧
    ¬(({ kind := CellKind.LETTER, solution := some 'A', is_starting_point := true,
         starting_point_num := 1, arrow_down := true } : Cell).arrow_down = true ∧
      ({ kind := CellKind.LETTER, solution := some 'A', is_starting_point := true,
         starting_point_num := 1, arrow_down := true } : Cell).arrow_right = true) :=
  ⟨ascross_C7.1 (parse_grid "A)") ['A'] 999 0 0 0 0 Direction.HORIZONTAL
     { kind := CellKind.LETTER, solution := some 'A', is_starting_point := true,
       starting_point_num := 1, arrow_down := true }
     (by decide) (by decide) (by decide) (by decide) (by decide),
   ascross_C7.2.1 (parse_grid "A(") ['A'] 999 0 0 0 0 Direction.VERTICAL
     { kind := CellKind.LETTER, solution := some 'A', is_starting_point := true,
       starting_point_num := 1, arrow_right := true }
     (by decide) (by decide) (by decide) (by decide) (by decide) (by decide),
   ascross_C7.2.2 "A)"
     [{ kind := CellKind.LETTER, solution := some 'A', is_starting_point := true,
        starting_point_num := 1, arrow_down := true }]
     { kind := CellKind.LETTER, solution := some 'A', is_starting_point := true,
       starting_point_num := 1, arrow_down := true }
     (by decide) (by decide)⟩

/-- C8: within one `map_clues` pass, a successful candidate whose
starting-point number is already in `used_starting_points` makes the pass
fail with `StartingPointReused`, reporting the already-mapped clues with
that number; and the HORIZONTAL and VERTICAL passes are independent calls
(each starts with an empty used-set), so the same starting cell can begin
both an across and a down clue without error, as on the grid `"Ab\nc"`. -/
theorem ascross_C8 :
    (∀ (grid : Grid) (dir : Direction) (clueText : String) (rowIdx colIdx : Nat)
        (cell : Cell) (rest : List Cell) (used : List Int)
        (clues : List (Int × String)) (p0 : Char) (ps : List Char),
        cell.kind = CellKind.LETTER → cell.is_starting_point = true →
        cell.solution = some p0 →
        (walkRun grid (p0 :: ps) dir rowIdx colIdx).1 = true →
        cell.starting_point_num ∈ used →
        scanRowCells grid (p0 :: ps) dir clueText rowIdx (cell :: rest) colIdx
            (false, used, clues) =
          Except.error (MapError.startingPointReused clueText
            cell.starting_point_num
            (clues.filter (fun cl => cl.1 == cell.starting_point_num)))) ∧
    map_clues (parse_grid "Ab\nc") "AB:across" Direction.HORIZONTAL =
      Except.ok [(1, "across (2)")] ∧
    map_clues (parse_grid "Ab\nc") "AC:down" Direction.VERTICAL =
      Except.ok [(1, "down (2)")] := by
  refine ⟨?_, by decide, by decide⟩
  intro grid dir clueText rowIdx colIdx cell rest used clues p0 ps hk hs hsol hw hused
  exact scanRowCells_reused_step grid dir clueText rowIdx colIdx cell rest used
    clues p0 ps hk hs hsol hw hused

/-- Witness for C8's reuse error: on the grid `"Ab"`, a second clue line
resolving to starting point 1 (already consumed by `"one (2)"`) fails
with the conflicting clue reported. -/
theorem ascross_C8_witness :
    scanRowCells (parse_grid "Ab") ['A', 'B'] Direction.HORIZONTAL "two" 0
        ([{ kind := CellKind.LETTER, solution := some 'A', is_starting_point := true,
            starting_point_num := 1 },
          { kind := CellKind.LETTER, solution := some 'B' }]) 0
        (false, [1], [(1, "one (2)")]) =
      Except.error (MapError.startingPointReused "two" 1
        ([(1, "one (2)")].filter (fun cl => cl.1 == (1 : Int)))) := by
  have h := ascross_C8.1 (parse_grid "Ab") Direction.HORIZONTAL "two" 0 0
    { kind := CellKind.LETTER, solution := some 'A', is_starting_point := true,
      starting_point_num := 1 }
    [{ kind := CellKind.LETTER, solution := some 'B' }]
    [1] [(1, "one (2)")] 'A' ['B']
    (by decide) (by decide) (by decide) (by decide) (by decide)
  exact h

/-- C9: `parse_grid` terminates normally on every input string and
returns a grid without raising: the index-based embedding of its loops
and random accesses (where an `IndexError` would surface as `none`)
always returns `some` grid, the one computed by the structural embedding. -/
theorem ascross_C9 : ∀ s : String, parse_gridE s = some (parse_grid s) := by
  intro s
  exact parse_gridE_eq s

/-- C10: a clue line without a `:` makes `map_clues` raise: if the
clue-line loop succeeds, every line contained a colon (no line is skipped
or silently mapped); when the loop reaches a colon-free line it fails
with the `ValueError` of the tuple unpacking of `split(':', 1)`; and that
error is not one of the documented authoring errors (`ClueNotMapped`,
`AmbiguousClue`, `StartingPointReused`). -/
theorem ascross_C10 :
    (∀ (grid : Grid) (s : String) (dir : Direction) (res : List (Int × String)),
        map_clues grid s dir = Except.ok res →
        ∀ line ∈ splitLines s.toList, hasColon line = true) ∧
    (∀ (grid : Grid) (dir : Direction) (line : List Char)
        (rest : List (List Char)) (used : List Int) (clues : List (Int × String)),
        hasColon line = false →
        mapCluesLines grid dir (line :: rest) used clues =
          Except.error (MapError.valueError (String.mk line))) ∧
    (∀ line : String, isDocumentedAuthoringError (MapError.valueError line) = false) := by
  refine ⟨?_, ?_, ?_⟩
  · intro grid s dir res h line hmem
    exact mapCluesLines_ok_hasColon (splitLines s.toList) grid dir [] [] res h line hmem
  · intro grid dir line rest used clues h
    have hp := processClueLine_noColon grid dir line used clues h
    simp only [mapCluesLines, hp]
  · intro line
    rfl

/-- Witness for C10: the line `"no colon"` has no colon and the loop
fails on it with the (undocumented) `ValueError`. -/
theorem ascross_C10_witness :
    hasColon (String.toList "no colon") = false ∧
    mapCluesLines [] Direction.HORIZONTAL [String.toList "no colon"] [] [] =
      Except.error (MapError.valueError (String.mk (String.toList "no colon"))) :=
  ⟨by decide,
   ascross_C10.2.1 [] Direction.HORIZONTAL (String.toList "no colon") [] [] []
     (by decide)⟩
